import Mathlib

/-!
Formal model of the retro-capture multi-phone synchronized video capture
system.  The coordinator is `src/server.js` (the revision with the
`captureCounter`, flash registration and multer upload endpoint, whose
line numbers are cited below); the device agent is `src/public/app.js`
(the revision with the `initSegment` handling).

The server keeps module-level state (`masterClient`, `clients`,
`sessionId`, `captureCounter`, lines 51-55) and reacts to socket events;
socket.io processes events of one node.js process sequentially, so the
server is embedded as a state machine: a `ServerState` and a step
function `serverStep` from inbound events to the new state plus the
list of emitted messages.

The device agent keeps a rolling buffer of 1-second recorded chunks and
reacts to the `capture` broadcast; it is embedded as a timed model of
the chunk buffer (`RecState`, `onDataAvailable`) plus a small state
machine for the upload re-entrancy guard (`DeviceState`, `devStep`).
-/

namespace RetroCapture

/-! ### Coordinator data model (src/server.js lines 51-55, 76-81) -/

/-- One entry of the server's `clients` map (`clients.set(socket.id, {...})`,
src/server.js lines 76-81): id, role string computed at connection time,
connected-at timestamp (`new Date()`), and self-reported flash capability. -/
structure ClientRec where
  id : Nat
  role : String
  connected : Nat
  hasFlash : Bool
deriving Repr, DecidableEq

/-- The server's module-level mutable state (src/server.js lines 51-55):
`masterClient` (socket id of the current master, or null), `clients`
(a JS `Map`, modelled as an association list in insertion order),
`sessionId`, and `captureCounter`.  Socket ids are modelled as `Nat`. -/
structure ServerState where
  masterClient : Option Nat
  clients : List (Nat × ClientRec)
  sessionId : Nat
  captureCounter : Nat
deriving Repr, DecidableEq

/-- The fields the server reads off `new Date(captureTime)` when it builds a
folder name (src/server.js lines 135-140).  `month` stores the value of
`getMonth()` (0-based, the code adds 1 before printing). -/
structure DateParts where
  year : Nat
  month : Nat
  day : Nat
  hours : Nat
  minutes : Nat
  seconds : Nat
deriving Repr, DecidableEq

/-- Inbound socket events.  The constructors are the events for which
`src/server.js` registers handlers (`connection`, `register-flash`,
`select-flash-phone`, `trigger-capture`, `video-uploaded`, `disconnect`),
plus `requestSyncStart` for a `request-synchronized-start` message: the
server registers no handler for that event name, and socket.io drops an
inbound event with no registered handler, so the step function maps it to
"no state change, no output".  `now` parameters carry the value
`Date.now()` would return when the handler runs. -/
inductive Ev where
  | connect (sid now : Nat)
  | registerFlash (sid : Nat) (hasFlash : Bool)
  | selectFlashPhone (sid : Nat) (phoneId : Option Nat)
  | triggerCapture (sid now : Nat) (date : DateParts)
  | videoUploaded (sid : Nat)
  | requestSyncStart (sid : Nat)
  | disconnect (sid now : Nat)
deriving Repr, DecidableEq

/-- Outbound messages the server can emit (`socket.emit` / `io.emit` /
`io.to(..).emit` calls in src/server.js).  `countdownTick` and `go` are the
countdown vocabulary of a synchronized-start protocol; they are part of the
message type so that statements about countdowns can be made, and the step
function never produces them (src/server.js has no countdown code). -/
inductive Msg where
  | role (target : Nat) (roleStr : String) (sessionId : Nat)
  | status (totalClients sessionId : Nat)
  | flashList (target : Nat) (phones : List (Nat × String))
  | setFlashPhone (target : Nat) (isFlashPhone : Bool)
  | capture (timestamp sessionId : Nat) (folderName : String)
  | countdownTick (remaining : Nat)
  | go
deriving Repr, DecidableEq

/-! ### Association-list operations mirroring the JS `Map` -/

/-- `clients.get(k)`. -/
def getEntry : List (Nat × ClientRec) → Nat → Option ClientRec
  | [], _ => none
  | (k', v) :: rest, k => if k' = k then some v else getEntry rest k

/-- `clients.set(k, v)`: a JS `Map.set` updates an existing key in place
(keeping its insertion position) and appends a fresh key. -/
def setEntry : List (Nat × ClientRec) → Nat → ClientRec → List (Nat × ClientRec)
  | [], k, v => [(k, v)]
  | (k', v') :: rest, k, v =>
    if k' = k then (k, v) :: rest else (k', v') :: setEntry rest k v

/-- `clients.delete(k)`: removes the entry with key `k` (JS `Map` keys are
unique, so removing every occurrence is the same operation). -/
def delEntry (l : List (Nat × ClientRec)) (k : Nat) : List (Nat × ClientRec) :=
  l.filter (fun e => e.1 ≠ k)

/-! ### Folder-name construction (src/server.js lines 129-146) -/

/-- JS `String.prototype.padStart(n, c)`: left-pad with `c` up to length `n`
(no-op when the string is already at least that long). -/
def padStart (s : String) (n : Nat) (c : Char) : String :=
  ⟨List.replicate (n - s.length) c ++ s.data⟩

/-- The `${year}${month}${day}_${hours}${minutes}${seconds}` part of the
folder name (src/server.js lines 135-140, 146): each two-digit field is
`String(x).padStart(2, '0')`, and the month is `getMonth() + 1`. -/
def fmtDate (d : DateParts) : String :=
  Nat.repr d.year ++ padStart (Nat.repr (d.month + 1)) 2 '0' ++
    padStart (Nat.repr d.day) 2 '0' ++ "_" ++
    padStart (Nat.repr d.hours) 2 '0' ++ padStart (Nat.repr d.minutes) 2 '0' ++
    padStart (Nat.repr d.seconds) 2 '0'

/-- `folderName` (src/server.js lines 143-146):
`${counterStr}_${year}${month}${day}_${hours}${minutes}${seconds}_${captureTime}`
with `counterStr = String(captureCounter).padStart(2, '0')`. -/
def mkFolderName (counter : Nat) (d : DateParts) (captureTime : Nat) : String :=
  padStart (Nat.repr counter) 2 '0' ++ "_" ++ fmtDate d ++ "_" ++ Nat.repr captureTime

/-! ### Server event handlers -/

/-- `io.on('connection', ...)` body, src/server.js lines 61-87: if no master
is set the new socket becomes master and is told so, otherwise it is told it
is a client; the socket is then added to `clients` with its role recomputed
from the (possibly just updated) `masterClient`, and a `status` broadcast
goes out. -/
def connectStep (s : ServerState) (sid now : Nat) : ServerState × List Msg :=
  match s.masterClient with
  | none =>
    let entry : ClientRec := ⟨sid, "master", now, false⟩
    let cl := setEntry s.clients sid entry
    ({ s with masterClient := some sid, clients := cl },
      [Msg.role sid "master" s.sessionId, Msg.status cl.length s.sessionId])
  | some m =>
    let entry : ClientRec := ⟨sid, if sid = m then "master" else "client", now, false⟩
    let cl := setEntry s.clients sid entry
    ({ s with clients := cl },
      [Msg.role sid "client" s.sessionId, Msg.status cl.length s.sessionId])

/-- `socket.on('register-flash', ...)`, src/server.js lines 90-106: update the
client's `hasFlash` field in place; if a master exists, send it the list of
flash-capable phones as `(id, role)` pairs. -/
def registerFlashStep (s : ServerState) (sid : Nat) (h : Bool) :
    ServerState × List Msg :=
  match getEntry s.clients sid with
  | none => (s, [])
  | some c =>
    let cl := setEntry s.clients sid { c with hasFlash := h }
    let s' := { s with clients := cl }
    match s.masterClient with
    | none => (s', [])
    | some m =>
      let phones := (cl.filter (fun e => e.2.hasFlash)).map (fun e => (e.1, e.2.role))
      (s', [Msg.flashList m phones])

/-- `socket.on('select-flash-phone', ...)`, src/server.js lines 109-124: only
honored for the master; tells every phone it is not the flash phone, then the
selected one (if any) that it is. -/
def selectFlashStep (s : ServerState) (sid : Nat) (phoneId : Option Nat) :
    ServerState × List Msg :=
  match s.masterClient with
  | none => (s, [])
  | some m =>
    if sid = m then
      (s, s.clients.map (fun e => Msg.setFlashPhone e.1 false) ++
        (match phoneId with
         | some p => [Msg.setFlashPhone p true]
         | none => []))
    else (s, [])

/-- `socket.on('trigger-capture', ...)`, src/server.js lines 127-159: only
honored for the master; builds the folder name from the current counter,
increments the counter, and broadcasts one `capture` event carrying the
wall-clock timestamp, the session id and the folder name. -/
def triggerStep (s : ServerState) (sid now : Nat) (d : DateParts) :
    ServerState × List Msg :=
  match s.masterClient with
  | none => (s, [])
  | some m =>
    if sid = m then
      ({ s with captureCounter := s.captureCounter + 1 },
        [Msg.capture now s.sessionId (mkFolderName s.captureCounter d now)])
    else (s, [])

/-- `socket.on('disconnect', ...)`, src/server.js lines 168-189: remove the
client; if the master left and clients remain, promote the first key of the
map and tell it (only it) its new role; if nobody remains, clear the master
and regenerate the session id; finally broadcast the new count. -/
def disconnectStep (s : ServerState) (sid now : Nat) : ServerState × List Msg :=
  match s.masterClient, delEntry s.clients sid with
  | some m, (k, r) :: rest =>
    if m = sid then
      ({ s with clients := (k, r) :: rest, masterClient := some k },
        [Msg.role k "master" s.sessionId,
          Msg.status ((k, r) :: rest).length s.sessionId])
    else
      ({ s with clients := (k, r) :: rest },
        [Msg.status ((k, r) :: rest).length s.sessionId])
  | _, [] =>
    ({ s with clients := [], masterClient := none, sessionId := now },
      [Msg.status 0 now])
  | none, (k, r) :: rest =>
    ({ s with clients := (k, r) :: rest },
      [Msg.status ((k, r) :: rest).length s.sessionId])

/-- Dispatch of one inbound event, as socket.io delivers them to the handlers
registered in src/server.js.  `video-uploaded` only logs (lines 162-165), and
`request-synchronized-start` has no registered handler, so both leave the
state unchanged and emit nothing. -/
def serverStep (s : ServerState) : Ev → ServerState × List Msg
  | .connect sid now => connectStep s sid now
  | .registerFlash sid h => registerFlashStep s sid h
  | .selectFlashPhone sid p => selectFlashStep s sid p
  | .triggerCapture sid now d => triggerStep s sid now d
  | .videoUploaded _ => (s, [])
  | .requestSyncStart _ => (s, [])
  | .disconnect sid now => disconnectStep s sid now

/-- Server state at startup (src/server.js lines 52-55): no master, empty
client map, `sessionId = Date.now()` (passed in as `sid0`), and
`captureCounter = 0` — the counter is a plain literal, nothing is read back
from storage. -/
def serverInit (sid0 : Nat) : ServerState :=
  ⟨none, [], sid0, 0⟩

/-- Run a sequence of events through the server. -/
def runServer (s : ServerState) : List Ev → ServerState
  | [] => s
  | e :: rest => runServer (serverStep s e).1 rest

/-- Well-formedness of one inbound event: a `connection` event always carries
a fresh socket id (socket.io allocates a new unique id per connection). -/
def okEv (s : ServerState) : Ev → Bool
  | .connect sid _ => getEntry s.clients sid = none
  | _ => true

/-- Well-formedness of an event sequence along its own execution. -/
def okRun (s : ServerState) : List Ev → Bool
  | [] => true
  | e :: rest => okEv s e && okRun (serverStep s e).1 rest

/-- The socket ids currently connected, in insertion order. -/
def keysOf (s : ServerState) : List Nat :=
  s.clients.map (fun e => e.1)

/-! ### Decimal rendering

`Nat.repr` is the Lean counterpart of the JS number-to-string conversion used
in the folder-name template.  It is implemented with the fuel-based
`Nat.toDigitsCore`; `decAux` is the same computation by well-founded
recursion, used to reason about the characters of the representation. -/

/-- Fuel-free version of `Nat.toDigitsCore 10`. -/
def decAux (n : Nat) (acc : List Char) : List Char :=
  if n / 10 = 0 then Nat.digitChar (n % 10) :: acc
  else decAux (n / 10) (Nat.digitChar (n % 10) :: acc)
termination_by n
decreasing_by omega

/-- Value of a digit string, for the round trip that shows decimal rendering
is injective. -/
def fromDigits (l : List Char) : Nat :=
  l.foldl (fun a c => 10 * a + (c.toNat - 48)) 0

/-! ### Device agent: rolling chunk buffer (src/public/app.js lines 143-212)

The agent records with one `MediaRecorder` started in 1-second chunks
(`mediaRecorder.start(CHUNK_DURATION)`, line 207).  Each `ondataavailable`
event carries the media recorded since the previous event; the model gives a
chunk the real-time interval it covers (`start` = previous delivery instant,
`stop` = this delivery instant = the chunk's `timestamp` field).  The first
chunk is kept aside as `initSegment` (lines 183-187); later chunks are pushed
and the buffer is pruned to the last `BUFFER_DURATION` milliseconds
(lines 189-197). -/

/-- `BUFFER_DURATION = 6000` (src/public/app.js line 5). -/
def BUFFER_DURATION : Nat := 6000

/-- `CHUNK_DURATION = 1000` (src/public/app.js line 6). -/
def CHUNK_DURATION : Nat := 1000

/-- The sync beep plays for 0.5 s (`oscillator.stop(currentTime + 0.5)`,
src/public/app.js lines 220-239). -/
def BEEP_MS : Nat := 500

/-- One recorded chunk: the interval of real time it covers.  The code's
`timestamp` field (`Date.now()` at delivery, line 191) is `stop`. -/
structure Chunk where
  start : Nat
  stop : Nat
deriving Repr, DecidableEq

/-- The recorder-side mutable state of src/public/app.js: `initSegment`
(line 16), `recordedChunks` (line 15), and the instant up to which data has
already been delivered. -/
structure RecState where
  initSegment : Option Chunk
  recordedChunks : List Chunk
  lastBoundary : Nat
deriving Repr, DecidableEq

/-- State right after `startContinuousRecording` begins recording at `now`:
no init segment yet, empty buffer. -/
def startRecording (now : Nat) : RecState :=
  ⟨none, [], now⟩

/-- `mediaRecorder.ondataavailable` (src/public/app.js lines 180-204): a
delivery at `now` carries the media covering `(lastBoundary, now]`; the
handler body only runs when the event has data (`event.data.size > 0`),
i.e. when the covered interval is nonempty.  The first chunk becomes the
init segment; later ones are appended and the buffer is filtered to chunks
with `timestamp > now - BUFFER_DURATION`. -/
def onDataAvailable (st : RecState) (now : Nat) : RecState :=
  if st.lastBoundary < now then
    match st.initSegment with
    | none => { st with initSegment := some ⟨st.lastBoundary, now⟩, lastBoundary := now }
    | some _ =>
      let pushed := st.recordedChunks ++ [⟨st.lastBoundary, now⟩]
      { st with
          recordedChunks := pushed.filter (fun ch => now - BUFFER_DURATION < ch.stop),
          lastBoundary := now }
  else st

/-- The recorder state after `n` periodic chunk deliveries of a recording
started at `s0` (`mediaRecorder.start(CHUNK_DURATION)` fires `ondataavailable`
every `CHUNK_DURATION` ms). -/
def runTicks (s0 : Nat) : Nat → RecState
  | 0 => startRecording s0
  | n + 1 => onDataAvailable (runTicks s0 n) (s0 + (n + 1) * CHUNK_DURATION)

/-- The capture handler (src/public/app.js lines 292-312) receives the
broadcast at `t`, plays the sync beep at `t`, waits 1 s, and calls
`saveVideo`, which calls `mediaRecorder.stop()` at `t + CHUNK_DURATION`
(line 364); stopping flushes one final data event with everything recorded
since the last delivery.  `stopFlushState` is the buffer state `saveVideo`
reads after that flush, for a recording started at `s0` that has had `n`
periodic deliveries. -/
def stopFlushState (s0 n t : Nat) : RecState :=
  onDataAvailable (runTicks s0 n) (t + CHUNK_DURATION)

/-- The chunk list `saveVideo` turns into the uploaded blob
(src/public/app.js lines 380-386): the init segment, when present, followed
by the buffered chunks. -/
def captureBlobChunks (s0 n t : Nat) : List Chunk :=
  match (stopFlushState s0 n t).initSegment with
  | some seg => seg :: (stopFlushState s0 n t).recordedChunks
  | none => (stopFlushState s0 n t).recordedChunks

/-- The chunk list `cs` has data covering the instant `u`. -/
def coversAt (cs : List Chunk) (u : Nat) : Prop :=
  ∃ ch ∈ cs, ch.start ≤ u ∧ u ≤ ch.stop

/-- Timeline of one capture on the device, for a `capture` broadcast received
at `t` and an upload lasting `d` ms (src/public/app.js): the sync marker is
emitted at `t` (line 299), the recorder is stopped at `t + 1000` after the
1-second wait (lines 308, 364), the blob is assembled after the further
500 ms wait for the final chunk (lines 367-386), and recording restarts only
after `await uploadToS3(...)` returns (lines 424-432). -/
structure CaptureTiming where
  markerAt : Nat
  stopAt : Nat
  blobAt : Nat
  restartAt : Nat
deriving Repr, DecidableEq

/-- The concrete timeline of src/public/app.js for a trigger at `t` and an
upload of duration `d`. -/
def captureTiming (t d : Nat) : CaptureTiming :=
  { markerAt := t
    stopAt := t + CHUNK_DURATION
    blobAt := t + CHUNK_DURATION + 500
    restartAt := t + CHUNK_DURATION + 500 + d }

/-! ### Device agent: upload re-entrancy guard (src/public/app.js 18, 335-340, 350-356, 447-449) -/

/-- Device-side upload state: the `isUploading` flag (line 18), the number of
`saveVideo` bodies currently past the guard (ghost counter for the
at-most-one-in-flight property), and the number of local "busy" indications
shown (the `debugLog('Already uploading, ...')` of line 352). -/
structure DeviceState where
  isUploading : Bool
  inFlight : Nat
  busyCount : Nat
deriving Repr, DecidableEq

/-- The two scheduling points of a `saveVideo` call: entering the function
(its guard runs synchronously, lines 351-356) and the `finally` block
releasing the flag after the upload settles (lines 447-449). -/
inductive DevEv where
  | saveBegin
  | saveEnd
deriving Repr, DecidableEq

/-- Effect of one `saveVideo` scheduling point.  The second component is the
list of socket messages sent: the busy path sends nothing to anyone — it
only logs locally and returns; a completed save emits `video-uploaded`
(line 483). -/
def devStep (s : DeviceState) : DevEv → DeviceState × List String
  | .saveBegin =>
    if s.isUploading then
      ({ s with busyCount := s.busyCount + 1 }, [])
    else
      ({ s with isUploading := true, inFlight := s.inFlight + 1 }, [])
  | .saveEnd =>
    ({ s with isUploading := false, inFlight := s.inFlight - 1 }, ["video-uploaded"])

/-- Device upload state at page load (line 18: `let isUploading = false`). -/
def devInit : DeviceState :=
  ⟨false, 0, 0⟩

/-- Run a sequence of `saveVideo` scheduling points. -/
def runDev (s : DeviceState) : List DevEv → DeviceState
  | [] => s
  | e :: rest => runDev (devStep s e).1 rest

/-- The capture button handler (src/public/app.js lines 335-340) emits
`trigger-capture` only when this device is the master and no upload is in
flight. -/
def captureBtnEmits (myRole : String) (isUploading : Bool) : Bool :=
  myRole == "master" && !isUploading

/-! ### Splitting a folder name at its underscores -/

/-- The characters of `l` before its first `'_'` (the counter field of a
folder name). -/
def beforeFirstUnderscoreData (l : List Char) : List Char :=
  l.takeWhile (fun c => c ≠ '_')

/-- The characters of `l` after its last `'_'` (the timestamp field of a
folder name). -/
def afterLastUnderscoreData (l : List Char) : List Char :=
  (l.reverse.takeWhile (fun c => c ≠ '_')).reverse

/-! ### Lemmas about the decimal rendering -/

theorem toDigitsCore_eq_decAux :
    ∀ (fuel n : Nat) (acc : List Char), n < fuel →
      Nat.toDigitsCore 10 fuel n acc = decAux n acc := by
  intro fuel
  induction fuel with
  | zero => intro n acc h; omega
  | succ f ih =>
    intro n acc h
    rw [decAux]
    simp only [Nat.toDigitsCore]
    by_cases h10 : n / 10 = 0
    · simp [h10]
    · simp only [h10, if_false]
      exact ih _ _ (by omega)

theorem repr_eq_decAux (n : Nat) : Nat.repr n = (decAux n []).asString := by
  show (Nat.toDigits 10 n).asString = _
  rw [Nat.toDigits, toDigitsCore_eq_decAux _ _ _ (Nat.lt_succ_self n)]

theorem decAux_eq_append :
    ∀ (n : Nat) (acc : List Char), decAux n acc = decAux n [] ++ acc := by
  intro n
  induction n using Nat.strong_induction_on with
  | _ n ih =>
    intro acc
    conv_lhs => rw [decAux]
    conv_rhs => rw [decAux]
    by_cases h10 : n / 10 = 0
    · simp [h10]
    · simp only [h10, if_false]
      rw [ih (n / 10) (by omega) (Nat.digitChar (n % 10) :: acc),
        ih (n / 10) (by omega) [Nat.digitChar (n % 10)]]
      simp

theorem digitChar_toNat (d : Nat) (hd : d < 10) :
    (Nat.digitChar d).toNat = 48 + d := by
  interval_cases d <;> decide

theorem fromDigits_decAux : ∀ n : Nat, fromDigits (decAux n []) = n := by
  intro n
  induction n using Nat.strong_induction_on with
  | _ n ih =>
    rw [decAux]
    by_cases h10 : n / 10 = 0
    · have h1 : n % 10 < 10 := by omega
      simp only [h10, if_true, if_pos]
      simp [fromDigits, digitChar_toNat _ h1]
      omega
    · simp only [h10, if_false]
      rw [decAux_eq_append]
      have h1 : n % 10 < 10 := by omega
      simp [fromDigits, List.foldl_append, digitChar_toNat _ h1]
      have := ih (n / 10) (by omega)
      simp [fromDigits] at this
      rw [this]
      omega

theorem natRepr_injective {m n : Nat} (h : Nat.repr m = Nat.repr n) : m = n := by
  rw [repr_eq_decAux, repr_eq_decAux] at h
  have hdata : decAux m [] = decAux n [] := congrArg String.data h
  calc m = fromDigits (decAux m []) := (fromDigits_decAux m).symm
    _ = fromDigits (decAux n []) := by rw [hdata]
    _ = n := fromDigits_decAux n

theorem mem_decAux :
    ∀ (n : Nat) (acc : List Char) (c : Char), c ∈ decAux n acc →
      c ∈ acc ∨ ∃ d, d < 10 ∧ c = Nat.digitChar d := by
  intro n
  induction n using Nat.strong_induction_on with
  | _ n ih =>
    intro acc c hc
    rw [decAux] at hc
    by_cases h10 : n / 10 = 0
    · simp only [h10, if_true, if_pos, List.mem_cons] at hc
      rcases hc with rfl | hc
      · exact Or.inr ⟨n % 10, by omega, rfl⟩
      · exact Or.inl hc
    · simp only [h10, if_false] at hc
      rcases ih (n / 10) (by omega) _ c hc with hmem | hd
      · rcases List.mem_cons.mp hmem with rfl | hmem
        · exact Or.inr ⟨n % 10, by omega, rfl⟩
        · exact Or.inl hmem
      · exact Or.inr hd

theorem underscore_not_mem_repr (n : Nat) : '_' ∉ (Nat.repr n).data := by
  rw [repr_eq_decAux]
  intro hmem
  have hmem' : '_' ∈ decAux n [] := hmem
  rcases mem_decAux n [] '_' hmem' with h | ⟨d, hd, he⟩
  · simp at h
  · interval_cases d <;> exact absurd he (by decide)

theorem underscore_not_mem_padRepr (n : Nat) :
    '_' ∉ (padStart (Nat.repr n) 2 '0').data := by
  intro hmem
  have hmem' : '_' ∈ List.replicate (2 - (Nat.repr n).length) '0' ++ (Nat.repr n).data :=
    hmem
  rcases List.mem_append.mp hmem' with h | h
  · have := List.eq_of_mem_replicate h
    exact absurd this (by decide)
  · exact underscore_not_mem_repr n h

theorem takeWhile_append_cons (p : Char → Bool) (xs : List Char) (y : Char)
    (ys : List Char) (hall : ∀ x ∈ xs, p x = true) (hy : p y = false) :
    (xs ++ y :: ys).takeWhile p = xs := by
  induction xs with
  | nil => simp [List.takeWhile_cons, hy]
  | cons a as ih =>
    simp only [List.cons_append, List.takeWhile_cons, hall a (List.mem_cons_self a as),
      if_true, if_pos]
    rw [ih (fun x hx => hall x (List.mem_cons_of_mem _ hx))]

theorem afterLast_append (xs ys : List Char) (h : '_' ∉ ys) :
    afterLastUnderscoreData (xs ++ '_' :: ys) = ys := by
  unfold afterLastUnderscoreData
  rw [List.reverse_append, List.reverse_cons, List.append_assoc,
    List.singleton_append,
    takeWhile_append_cons _ _ _ _
      (fun x hx => by
        have : x ∈ ys := List.mem_reverse.mp hx
        simp
        intro hcontra
        exact h (hcontra ▸ this))
      (by decide),
    List.reverse_reverse]

theorem beforeFirst_append (xs ys : List Char) (h : '_' ∉ xs) :
    beforeFirstUnderscoreData (xs ++ '_' :: ys) = xs := by
  unfold beforeFirstUnderscoreData
  exact takeWhile_append_cons _ _ _ _
    (fun x hx => by
      simp
      intro hcontra
      exact h (hcontra ▸ hx))
    (by decide)

theorem mkFolderName_split_last (c : Nat) (d : DateParts) (ts : Nat) :
    (mkFolderName c d ts).data =
      (padStart (Nat.repr c) 2 '0' ++ "_" ++ fmtDate d).data ++
        '_' :: (Nat.repr ts).data := by
  simp [mkFolderName, String.data_append, List.append_assoc]

theorem mkFolderName_split_first (c : Nat) (d : DateParts) (ts : Nat) :
    (mkFolderName c d ts).data =
      (padStart (Nat.repr c) 2 '0').data ++
        '_' :: (fmtDate d ++ "_" ++ Nat.repr ts).data := by
  simp [mkFolderName, String.data_append, List.append_assoc]

theorem afterLast_mkFolderName (c : Nat) (d : DateParts) (ts : Nat) :
    afterLastUnderscoreData (mkFolderName c d ts).data = (Nat.repr ts).data := by
  rw [mkFolderName_split_last]
  exact afterLast_append _ _ (underscore_not_mem_repr ts)

theorem beforeFirst_mkFolderName (c : Nat) (d : DateParts) (ts : Nat) :
    beforeFirstUnderscoreData (mkFolderName c d ts).data =
      (padStart (Nat.repr c) 2 '0').data := by
  rw [mkFolderName_split_first]
  exact beforeFirst_append _ _ (underscore_not_mem_padRepr c)

theorem padStart_length (s : String) (n : Nat) (c : Char) :
    (padStart s n c).length = max n s.length := by
  show (List.replicate (n - s.data.length) c ++ s.data).length = max n s.data.length
  simp [List.length_append, List.length_replicate]
  omega

theorem mkFolderName_injective_ts {c₁ c₂ : Nat} {d₁ d₂ : DateParts} {t₁ t₂ : Nat}
    (h : mkFolderName c₁ d₁ t₁ = mkFolderName c₂ d₂ t₂) : t₁ = t₂ := by
  have hdata := congrArg String.data h
  have h1 := afterLast_mkFolderName c₁ d₁ t₁
  have h2 := afterLast_mkFolderName c₂ d₂ t₂
  rw [hdata] at h1
  have hrepr : (Nat.repr t₁).data = (Nat.repr t₂).data := h1.symm.trans h2
  exact natRepr_injective (String.ext hrepr)

/-! ### Lemmas about the rolling chunk buffer -/

theorem runTicks_lastBoundary (s0 : Nat) :
    ∀ n, (runTicks s0 n).lastBoundary = s0 + n * CHUNK_DURATION := by
  intro n
  induction n with
  | zero => simp [runTicks, startRecording]
  | succ n ih =>
    simp only [runTicks]
    unfold onDataAvailable
    rw [if_pos (by rw [ih]; simp only [CHUNK_DURATION]; omega)]
    split <;> simp

theorem runTicks_initSegment (s0 : Nat) :
    ∀ n, 1 ≤ n → (runTicks s0 n).initSegment = some ⟨s0, s0 + CHUNK_DURATION⟩ := by
  intro n
  induction n with
  | zero => intro h; omega
  | succ n ih =>
    intro _
    rcases Nat.eq_zero_or_pos n with rfl | hn
    · show (onDataAvailable (startRecording s0) (s0 + 1 * CHUNK_DURATION)).initSegment = _
      unfold onDataAvailable startRecording
      rw [if_pos (by simp only [CHUNK_DURATION]; omega)]
      simp
    · simp only [runTicks]
      unfold onDataAvailable
      rw [if_pos (by rw [runTicks_lastBoundary]; simp only [CHUNK_DURATION]; omega)]
      rw [ih hn]

theorem chunk_mem_runTicks (s0 : Nat) :
    ∀ n k, 1 ≤ k → k + 1 ≤ n →
      s0 + n * CHUNK_DURATION < s0 + (k + 1) * CHUNK_DURATION + BUFFER_DURATION →
      (⟨s0 + k * CHUNK_DURATION, s0 + (k + 1) * CHUNK_DURATION⟩ : Chunk) ∈
        (runTicks s0 n).recordedChunks := by
  intro n
  induction n with
  | zero => intro k hk hkn _; omega
  | succ n ih =>
    intro k hk hkn hcond
    simp only [CHUNK_DURATION, BUFFER_DURATION] at hcond ⊢
    have hn1 : 1 ≤ n := by omega
    simp only [runTicks]
    unfold onDataAvailable
    rw [runTicks_lastBoundary s0 n, runTicks_initSegment s0 n hn1]
    rw [if_pos (by simp only [CHUNK_DURATION]; omega)]
    simp only [List.mem_filter, List.mem_append, List.mem_singleton]
    rcases Nat.lt_or_ge (k + 1) (n + 1) with hlt | hge
    · constructor
      · left
        have := ih k hk (by omega) (by simp only [CHUNK_DURATION, BUFFER_DURATION]; omega)
        simpa only [CHUNK_DURATION] using this
      · simp only [decide_eq_true_eq, CHUNK_DURATION, BUFFER_DURATION]
        omega
    · have hkeq : k = n := by omega
      subst hkeq
      constructor
      · right
        simp only [CHUNK_DURATION]
      · simp only [decide_eq_true_eq, CHUNK_DURATION, BUFFER_DURATION]
        omega

/-- The buffer state `saveVideo` reads keeps the init segment. -/
theorem stopFlushState_initSegment (s0 n t : Nat) (hn : 1 ≤ n) :
    (stopFlushState s0 n t).initSegment = some ⟨s0, s0 + CHUNK_DURATION⟩ := by
  unfold stopFlushState onDataAvailable
  split
  · simp [runTicks_initSegment s0 n hn]
  · exact runTicks_initSegment s0 n hn

/-- A buffered chunk recent enough to pass the final pruning survives the
stop flush. -/
theorem chunk_mem_stopFlush (s0 n t : Nat) (hn : 1 ≤ n) (ch : Chunk)
    (hmem : ch ∈ (runTicks s0 n).recordedChunks)
    (hrecent : t + CHUNK_DURATION - BUFFER_DURATION < ch.stop) :
    ch ∈ (stopFlushState s0 n t).recordedChunks := by
  unfold stopFlushState onDataAvailable
  rw [runTicks_initSegment s0 n hn]
  split
  · simp only [List.mem_filter, List.mem_append]
    exact ⟨Or.inl hmem, by simpa using hrecent⟩
  · exact hmem

/-- When the recorder is stopped strictly after the last periodic delivery,
the flushed final chunk (covering up to the stop instant) is in the buffer
`saveVideo` reads. -/
theorem finalChunk_mem_stopFlush (s0 n t : Nat) (hn : 1 ≤ n)
    (hlt : s0 + n * CHUNK_DURATION < t + CHUNK_DURATION) :
    (⟨s0 + n * CHUNK_DURATION, t + CHUNK_DURATION⟩ : Chunk) ∈
      (stopFlushState s0 n t).recordedChunks := by
  unfold stopFlushState onDataAvailable
  rw [runTicks_initSegment s0 n hn, runTicks_lastBoundary s0 n]
  rw [if_pos hlt]
  simp only [List.mem_filter, List.mem_append, List.mem_singleton]
  refine ⟨Or.inr (by simp), ?_⟩
  simp only [decide_eq_true_eq, CHUNK_DURATION, BUFFER_DURATION]
  omega

/-- Every instant of the marker-emission interval `[t, t + BEEP_MS]` is
covered by the chunk list `saveVideo` uploads, provided the rolling buffer
has been recording for at least `BUFFER_DURATION` before the trigger and `n`
counts the periodic deliveries before the stop. -/
theorem marker_covered (s0 n t u : Nat)
    (hfill : s0 + BUFFER_DURATION ≤ t)
    (hn1 : s0 + n * CHUNK_DURATION ≤ t + CHUNK_DURATION)
    (hn2 : t + CHUNK_DURATION < s0 + (n + 1) * CHUNK_DURATION)
    (hu1 : t ≤ u) (hu2 : u ≤ t + BEEP_MS) :
    coversAt (captureBlobChunks s0 n t) u := by
  have hfill' : s0 + 6000 ≤ t := by simpa [BUFFER_DURATION] using hfill
  have hn1' : s0 + n * 1000 ≤ t + 1000 := by simpa [CHUNK_DURATION] using hn1
  have hn2' : t + 1000 < s0 + (n + 1) * 1000 := by simpa [CHUNK_DURATION] using hn2
  have hu2' : u ≤ t + 500 := by simpa [BEEP_MS] using hu2
  have hn7 : 7 ≤ n := by omega
  have hblob : captureBlobChunks s0 n t =
      (⟨s0, s0 + CHUNK_DURATION⟩ : Chunk) :: (stopFlushState s0 n t).recordedChunks := by
    unfold captureBlobChunks
    rw [stopFlushState_initSegment s0 n t (by omega)]
  rcases Nat.lt_or_ge u (s0 + n * 1000) with hcase | hcase
  · -- the chunk whose interval contains `u` is an ordinary buffered chunk
    set k := (u - s0) / 1000 with hkdef
    have hk1 : s0 + k * 1000 ≤ u := by omega
    have hk2 : u < s0 + (k + 1) * 1000 := by omega
    have hkge : 1 ≤ k := by omega
    have hkn : k + 1 ≤ n := by omega
    have hmem : (⟨s0 + k * CHUNK_DURATION, s0 + (k + 1) * CHUNK_DURATION⟩ : Chunk) ∈
        (runTicks s0 n).recordedChunks := by
      apply chunk_mem_runTicks s0 n k hkge hkn
      simp only [CHUNK_DURATION, BUFFER_DURATION]
      omega
    have hmem' := chunk_mem_stopFlush s0 n t (by omega) _ hmem
      (by simp only [CHUNK_DURATION, BUFFER_DURATION]; omega)
    refine ⟨⟨s0 + k * CHUNK_DURATION, s0 + (k + 1) * CHUNK_DURATION⟩, ?_, ?_, ?_⟩
    · rw [hblob]
      exact List.mem_cons_of_mem _ hmem'
    · simp only [CHUNK_DURATION]; omega
    · simp only [CHUNK_DURATION]; omega
  · -- `u` lies after the last periodic delivery: the flushed final chunk covers it
    have hlt : s0 + n * 1000 < t + 1000 := by omega
    have hmem := finalChunk_mem_stopFlush s0 n t (by omega)
      (by simp only [CHUNK_DURATION]; omega)
    refine ⟨⟨s0 + n * CHUNK_DURATION, t + CHUNK_DURATION⟩, ?_, ?_, ?_⟩
    · rw [hblob]
      exact List.mem_cons_of_mem _ hmem
    · simp only [CHUNK_DURATION]; omega
    · simp only [CHUNK_DURATION]; omega

/-! ### Lemmas about the client map -/

theorem getEntry_none_iff (l : List (Nat × ClientRec)) (k : Nat) :
    getEntry l k = none ↔ k ∉ l.map (fun e => e.1) := by
  induction l with
  | nil => simp [getEntry]
  | cons e rest ih =>
    by_cases hk : e.1 = k
    · simp [getEntry, hk]
    · simp [getEntry, hk, ih, Ne.symm hk]

theorem setEntry_fresh (l : List (Nat × ClientRec)) (k : Nat) (v : ClientRec)
    (h : getEntry l k = none) : setEntry l k v = l ++ [(k, v)] := by
  induction l with
  | nil => simp [setEntry]
  | cons e rest ih =>
    by_cases hk : e.1 = k
    · simp [getEntry, hk] at h
    · simp only [getEntry, hk, if_false] at h
      simp [setEntry, hk, ih h]

theorem setEntry_keys_of_mem (l : List (Nat × ClientRec)) (k : Nat)
    (v c : ClientRec) (h : getEntry l k = some c) :
    (setEntry l k v).map (fun e => e.1) = l.map (fun e => e.1) := by
  induction l with
  | nil => simp [getEntry] at h
  | cons e rest ih =>
    by_cases hk : e.1 = k
    · simp [setEntry, hk]
    · simp only [getEntry, hk, if_false] at h
      simp [setEntry, hk, ih h]

theorem delEntry_keys (l : List (Nat × ClientRec)) (k : Nat) :
    (delEntry l k).map (fun e => e.1) =
      (l.map (fun e => e.1)).filter (fun x => x ≠ k) := by
  induction l with
  | nil => simp [delEntry]
  | cons e rest ih =>
    by_cases hk : e.1 = k
    · simp [delEntry, hk] at ih ⊢
      exact ih
    · simp [delEntry, hk] at ih ⊢
      exact ih

/-! ### The exactly-one-conductor invariant -/

/-- Conductor invariant of the server state: a null `masterClient` only
happens with no clients, a non-null `masterClient` is a connected socket id,
and the client map has no duplicate keys. -/
def ServerInv (s : ServerState) : Prop :=
  (s.masterClient = none → s.clients = []) ∧
  (∀ m, s.masterClient = some m → m ∈ keysOf s) ∧
  (keysOf s).Nodup

theorem serverInv_init (sid0 : Nat) : ServerInv (serverInit sid0) := by
  refine ⟨fun _ => rfl, ?_, ?_⟩ <;> simp [serverInit, keysOf]

theorem serverInv_connect (s : ServerState) (sid now : Nat)
    (hinv : ServerInv s) (hfresh : getEntry s.clients sid = none) :
    ServerInv (connectStep s sid now).1 := by
  obtain ⟨h1, h2, h3⟩ := hinv
  have hnotmem : sid ∉ s.clients.map (fun e => e.1) :=
    (getEntry_none_iff _ _).mp hfresh
  cases hmc : s.masterClient with
  | none =>
    have hcl : s.clients = [] := h1 hmc
    simp [connectStep, hmc, hcl, setEntry, ServerInv, keysOf]
  | some m =>
    simp only [connectStep, hmc]
    rw [setEntry_fresh _ _ _ hfresh]
    refine ⟨by simp, ?_, ?_⟩
    · intro m' hm'
      simp only at hm'
      have := h2 m' (hmc ▸ hm')
      simp only [keysOf] at this ⊢
      simp [this]
    · simp only [keysOf, List.map_append]
      simp only [keysOf] at h3 hnotmem
      simp [List.nodup_append, h3, hnotmem]

theorem serverInv_registerFlash (s : ServerState) (sid : Nat) (h : Bool)
    (hinv : ServerInv s) : ServerInv (registerFlashStep s sid h).1 := by
  obtain ⟨h1, h2, h3⟩ := hinv
  unfold registerFlashStep
  cases hget : getEntry s.clients sid with
  | none => exact ⟨h1, h2, h3⟩
  | some c =>
    have hkeys := setEntry_keys_of_mem s.clients sid { c with hasFlash := h } c hget
    cases hmc : s.masterClient with
    | none =>
      have hcl : s.clients = [] := h1 hmc
      rw [hcl] at hget
      simp [getEntry] at hget
    | some m =>
      refine ⟨by simp [hmc], ?_, ?_⟩
      · intro m' hm'
        simp only [hmc] at hm'
        have := h2 m' (hmc ▸ hm')
        simp only [keysOf] at this ⊢
        simpa [hkeys] using this
      · simp only [keysOf] at h3 ⊢
        simpa [hkeys] using h3

theorem serverInv_disconnect (s : ServerState) (sid now : Nat)
    (hinv : ServerInv s) : ServerInv (disconnectStep s sid now).1 := by
  obtain ⟨h1, h2, h3⟩ := hinv
  have hdelkeys := delEntry_keys s.clients sid
  have hdelnodup : (keysOf { s with clients := delEntry s.clients sid }).Nodup := by
    simp only [keysOf] at h3 ⊢
    rw [hdelkeys]
    exact h3.filter _
  unfold disconnectStep
  cases hmc : s.masterClient with
  | none =>
    have hcl : s.clients = [] := h1 hmc
    rw [hcl]
    simp [delEntry, ServerInv, keysOf]
  | some m =>
    cases hdel : delEntry s.clients sid with
    | nil => exact ⟨fun _ => rfl, by simp, by simp [keysOf]⟩
    | cons kv rest =>
      obtain ⟨k, v⟩ := kv
      rw [hdel] at hdelkeys hdelnodup
      by_cases hms : m = sid
      · simp only [hms, if_pos, if_true]
        refine ⟨by simp, ?_, ?_⟩
        · intro m' hm'
          simp only [Option.some.injEq] at hm'
          simp [keysOf, ← hm']
        · simpa [keysOf] using hdelnodup
      · simp only [hms, if_neg, if_false]
        refine ⟨by simp [hmc], ?_, ?_⟩
        · intro m' hm'
          simp only at hm'
          have hm2 : m = m' := Option.some.inj hm'
          subst hm2
          have hmem := h2 m hmc
          simp only [keysOf] at hmem ⊢
          rw [hdelkeys]
          exact List.mem_filter.mpr ⟨hmem, by simpa using hms⟩
        · simpa [keysOf] using hdelnodup

/-- `select-flash-phone` never changes the state. -/
theorem selectFlash_state (s : ServerState) (sid : Nat) (p : Option Nat) :
    (selectFlashStep s sid p).1 = s := by
  unfold selectFlashStep
  split
  · rfl
  · split <;> rfl

/-- `trigger-capture` touches only the counter: roster and master are
unchanged. -/
theorem triggerStep_frame (s : ServerState) (sid now : Nat) (d : DateParts) :
    (triggerStep s sid now d).1.masterClient = s.masterClient ∧
      (triggerStep s sid now d).1.clients = s.clients := by
  unfold triggerStep
  split
  · exact ⟨rfl, rfl⟩
  · split <;> exact ⟨rfl, rfl⟩

/-- The conductor invariant only depends on the master reference and the
roster. -/
theorem serverInv_of_eq (s t : ServerState)
    (hm : t.masterClient = s.masterClient) (hc : t.clients = s.clients)
    (hinv : ServerInv s) : ServerInv t := by
  obtain ⟨a, b, c⟩ := hinv
  refine ⟨?_, ?_, ?_⟩
  · intro h; rw [hc]; exact a (hm ▸ h)
  · intro m hm'
    have := b m (by rw [← hm]; exact hm')
    simpa [keysOf, hc] using this
  · simpa [keysOf, hc] using c

/-- The conductor invariant is preserved by every well-formed step. -/
theorem serverInv_step (s : ServerState) (e : Ev)
    (hinv : ServerInv s) (hok : okEv s e = true) :
    ServerInv (serverStep s e).1 := by
  cases e with
  | connect sid now =>
    have hfresh : getEntry s.clients sid = none := by
      simpa [okEv] using hok
    exact serverInv_connect s sid now hinv hfresh
  | registerFlash sid h => exact serverInv_registerFlash s sid h hinv
  | selectFlashPhone sid p =>
    have hstate : (serverStep s (Ev.selectFlashPhone sid p)).1 = s :=
      selectFlash_state s sid p
    exact serverInv_of_eq _ _ (by rw [hstate]) (by rw [hstate]) hinv
  | triggerCapture sid now d =>
    exact serverInv_of_eq _ _ (triggerStep_frame s sid now d).1
      (triggerStep_frame s sid now d).2 hinv
  | videoUploaded sid => exact hinv
  | requestSyncStart sid => exact hinv
  | disconnect sid now => exact serverInv_disconnect s sid now hinv

theorem serverInv_run :
    ∀ (evs : List Ev) (s : ServerState), ServerInv s → okRun s evs = true →
      ServerInv (runServer s evs) := by
  intro evs
  induction evs with
  | nil => intro s hinv _; exact hinv
  | cons e rest ih =>
    intro s hinv hok
    simp only [okRun, Bool.and_eq_true] at hok
    exact ih _ (serverInv_step s e hinv hok.1) hok.2

/-! ### Capture-counter lemmas -/

/-- Recognizer for a broadcast `capture` message. -/
def isCaptureMsg : Msg → Bool
  | .capture _ _ _ => true
  | _ => false

/-- The capture-counter values the server stamps into folder names along an
event sequence: whenever a step broadcasts a `capture` event, the counter
value it used is the state's `captureCounter` at that step
(src/server.js lines 143-146). -/
def countersUsed (s : ServerState) : List Ev → List Nat
  | [] => []
  | e :: rest =>
    (if (serverStep s e).2.any isCaptureMsg then [s.captureCounter] else []) ++
      countersUsed (serverStep s e).1 rest

/-- No handler ever decreases the counter. -/
theorem counter_mono (s : ServerState) (e : Ev) :
    s.captureCounter ≤ (serverStep s e).1.captureCounter := by
  cases e with
  | connect sid now =>
    show s.captureCounter ≤ (connectStep s sid now).1.captureCounter
    unfold connectStep
    cases s.masterClient <;> simp
  | registerFlash sid h =>
    show s.captureCounter ≤ (registerFlashStep s sid h).1.captureCounter
    unfold registerFlashStep
    cases getEntry s.clients sid with
    | none => simp
    | some c => cases s.masterClient <;> simp
  | selectFlashPhone sid p =>
    show s.captureCounter ≤ (selectFlashStep s sid p).1.captureCounter
    unfold selectFlashStep
    cases s.masterClient with
    | none => simp
    | some m => by_cases hsm : sid = m <;> simp [hsm]
  | triggerCapture sid now d =>
    show s.captureCounter ≤ (triggerStep s sid now d).1.captureCounter
    unfold triggerStep
    cases s.masterClient with
    | none => simp
    | some m => by_cases hsm : sid = m <;> simp [hsm]
  | videoUploaded sid => exact Nat.le_refl _
  | requestSyncStart sid => exact Nat.le_refl _
  | disconnect sid now =>
    show s.captureCounter ≤ (disconnectStep s sid now).1.captureCounter
    unfold disconnectStep
    cases s.masterClient with
    | none =>
      cases delEntry s.clients sid with
      | nil => simp
      | cons kv rest => obtain ⟨k, v⟩ := kv; simp
    | some m =>
      cases delEntry s.clients sid with
      | nil => simp
      | cons kv rest =>
        obtain ⟨k, v⟩ := kv
        by_cases hms : m = sid <;> simp [hms]

/-- A step that broadcasts a `capture` message is an honored trigger: it
increments the counter by exactly one. -/
theorem counter_incr_of_capture (s : ServerState) (e : Ev)
    (hcap : (serverStep s e).2.any isCaptureMsg = true) :
    (serverStep s e).1.captureCounter = s.captureCounter + 1 := by
  cases e with
  | connect sid now =>
    exfalso
    revert hcap
    show ¬(connectStep s sid now).2.any isCaptureMsg = true
    unfold connectStep
    cases s.masterClient <;> simp [isCaptureMsg]
  | registerFlash sid h =>
    exfalso
    revert hcap
    show ¬(registerFlashStep s sid h).2.any isCaptureMsg = true
    unfold registerFlashStep
    cases getEntry s.clients sid with
    | none => simp
    | some c => cases s.masterClient <;> simp [isCaptureMsg]
  | selectFlashPhone sid p =>
    exfalso
    revert hcap
    show ¬(selectFlashStep s sid p).2.any isCaptureMsg = true
    unfold selectFlashStep
    split
    · simp
    · split
      · simp only [List.any_eq_true, not_exists]
        rintro x ⟨hx, hcapx⟩
        rcases List.mem_append.mp hx with hx | hx
        · obtain ⟨ee, _, rfl⟩ := List.mem_map.mp hx
          simp [isCaptureMsg] at hcapx
        · cases p with
          | none => simp at hx
          | some q =>
            simp only [List.mem_singleton] at hx
            subst hx
            simp [isCaptureMsg] at hcapx
      · simp
  | triggerCapture sid now d =>
    revert hcap
    show (triggerStep s sid now d).2.any isCaptureMsg = true →
      (triggerStep s sid now d).1.captureCounter = s.captureCounter + 1
    unfold triggerStep
    split
    · simp
    · split
      · intro _; simp
      · simp
  | videoUploaded sid => simp [serverStep] at hcap
  | requestSyncStart sid => simp [serverStep] at hcap
  | disconnect sid now =>
    exfalso
    revert hcap
    show ¬(disconnectStep s sid now).2.any isCaptureMsg = true
    unfold disconnectStep
    cases s.masterClient with
    | none =>
      cases delEntry s.clients sid with
      | nil => simp [isCaptureMsg]
      | cons kv rest => obtain ⟨k, v⟩ := kv; simp [isCaptureMsg]
    | some m =>
      cases delEntry s.clients sid with
      | nil => simp [isCaptureMsg]
      | cons kv rest =>
        obtain ⟨k, v⟩ := kv
        by_cases hms : m = sid <;> simp [hms, isCaptureMsg]

theorem countersUsed_lower :
    ∀ (evs : List Ev) (s : ServerState) (v : Nat),
      v ∈ countersUsed s evs → s.captureCounter ≤ v := by
  intro evs
  induction evs with
  | nil => intro s v hv; simp [countersUsed] at hv
  | cons e rest ih =>
    intro s v hv
    simp only [countersUsed] at hv
    rcases List.mem_append.mp hv with hv | hv
    · by_cases hcap : (serverStep s e).2.any isCaptureMsg = true
      · simp [hcap] at hv
        omega
      · simp [hcap] at hv
    · exact Nat.le_trans (counter_mono s e) (ih _ v hv)

theorem countersUsed_chain :
    ∀ (evs : List Ev) (s : ServerState),
      List.Chain' (· < ·) (countersUsed s evs) := by
  intro evs
  induction evs with
  | nil => intro s; simp [countersUsed]
  | cons e rest ih =>
    intro s
    simp only [countersUsed]
    by_cases hcap : (serverStep s e).2.any isCaptureMsg = true
    · simp only [hcap, if_true, if_pos, List.singleton_append]
      rw [List.chain'_cons']
      refine ⟨?_, ih _⟩
      intro y hy
      have hmem : y ∈ countersUsed (serverStep s e).1 rest :=
        List.mem_of_mem_head? hy
      have hlow := countersUsed_lower rest _ y hmem
      have hincr := counter_incr_of_capture s e hcap
      omega
    · simp only [hcap, if_neg, if_false, Bool.false_eq_true, List.nil_append]
      exact ih _

/-! ### Further message recognizers -/

/-- Recognizer for a `role` message (a promotion or initial role
assignment). -/
def isRoleMsg : Msg → Bool
  | .role _ _ _ => true
  | _ => false

/-- Recognizer for a countdown tick broadcast. -/
def isTickMsg : Msg → Bool
  | .countdownTick _ => true
  | _ => false

/-- Recognizer for a "go" broadcast. -/
def isGoMsg : Msg → Bool
  | .go => true
  | _ => false

/-- A fixed calendar date used for concrete runs (any value will do: the
server never inspects the parts, it only prints them). -/
def dparts0 : DateParts :=
  ⟨2025, 9, 20, 15, 24, 30⟩

/-- One connection followed by one hundred honored triggers: drives the
capture counter from 0 to 100 within a single run. -/
def c5run : List Ev :=
  Ev.connect 1 0 :: List.replicate 100 (Ev.triggerCapture 1 1111 dparts0)

/-- A server that has accepted one connection (which became master). -/
def c4state : ServerState :=
  (serverStep (serverInit 5) (Ev.connect 1 10)).1

/-! ## Claims -/

/-- C1: for every well-formed sequence of connects and disconnects (and any
other events), whenever at least one device is connected exactly one device
holds the conductor (master) role — `masterClient` names a connected device
and no two devices can hold the role at once. -/
theorem exactly_one_conductor (sid0 : Nat) (evs : List Ev)
    (h : okRun (serverInit sid0) evs = true) :
    ((runServer (serverInit sid0) evs).clients ≠ [] →
      ∃ m, (runServer (serverInit sid0) evs).masterClient = some m ∧
        m ∈ keysOf (runServer (serverInit sid0) evs)) ∧
    (∀ m₁ m₂, (runServer (serverInit sid0) evs).masterClient = some m₁ →
      (runServer (serverInit sid0) evs).masterClient = some m₂ → m₁ = m₂) := by
  have hinv := serverInv_run evs (serverInit sid0) (serverInv_init sid0) h
  obtain ⟨h1, h2, h3⟩ := hinv
  constructor
  · intro hne
    cases hmc : (runServer (serverInit sid0) evs).masterClient with
    | none => exact absurd (h1 hmc) hne
    | some m => exact ⟨m, rfl, h2 m hmc⟩
  · intro m₁ m₂ hm₁ hm₂
    rw [hm₁] at hm₂
    exact Option.some.inj hm₂

/-- Witness for C1 at a concrete run: connect 1, connect 2, disconnect the
conductor. -/
theorem exactly_one_conductor_witness :
    okRun (serverInit 5) [Ev.connect 1 10, Ev.connect 2 11, Ev.disconnect 1 12] = true ∧
    (((runServer (serverInit 5) [Ev.connect 1 10, Ev.connect 2 11, Ev.disconnect 1 12]).clients ≠ [] →
      ∃ m, (runServer (serverInit 5) [Ev.connect 1 10, Ev.connect 2 11, Ev.disconnect 1 12]).masterClient = some m ∧
        m ∈ keysOf (runServer (serverInit 5) [Ev.connect 1 10, Ev.connect 2 11, Ev.disconnect 1 12])) ∧
    (∀ m₁ m₂, (runServer (serverInit 5) [Ev.connect 1 10, Ev.connect 2 11, Ev.disconnect 1 12]).masterClient = some m₁ →
      (runServer (serverInit 5) [Ev.connect 1 10, Ev.connect 2 11, Ev.disconnect 1 12]).masterClient = some m₂ → m₁ = m₂)) :=
  ⟨by decide, exactly_one_conductor 5 _ (by decide)⟩

/-- C2: for a capture broadcast received at `t` while the rolling buffer has
been recording for at least `BUFFER_DURATION`, the chunk list handed to the
upload is assembled after `t` (at `t + 1500`), contains data recorded after
`t`, covers the whole marker-emission interval `[t, t + BEEP_MS]`, and the
wait is `1500 ms ≤ BUFFER_DURATION` — the agent never uploads a blob
finalized before the trigger and never blocks unboundedly. -/
theorem capture_segment_after_trigger (s0 n t d : Nat)
    (hfill : s0 + BUFFER_DURATION ≤ t)
    (hn1 : s0 + n * CHUNK_DURATION ≤ t + CHUNK_DURATION)
    (hn2 : t + CHUNK_DURATION < s0 + (n + 1) * CHUNK_DURATION) :
    t < (captureTiming t d).blobAt ∧
    (captureTiming t d).blobAt - t ≤ BUFFER_DURATION ∧
    (∃ ch ∈ captureBlobChunks s0 n t, t < ch.stop) ∧
    (∀ u, t ≤ u → u ≤ t + BEEP_MS → coversAt (captureBlobChunks s0 n t) u) := by
  refine ⟨?_, ?_, ?_, ?_⟩
  · simp only [captureTiming, CHUNK_DURATION]
    omega
  · simp only [captureTiming, CHUNK_DURATION, BUFFER_DURATION]
    omega
  · obtain ⟨ch, hmem, hlo, hhi⟩ :=
      marker_covered s0 n t (t + BEEP_MS) hfill hn1 hn2 (by omega) (Nat.le_refl _)
    refine ⟨ch, hmem, ?_⟩
    simp only [BEEP_MS] at hhi
    omega
  · intro u hu1 hu2
    exact marker_covered s0 n t u hfill hn1 hn2 hu1 hu2

/-- Witness for C2 at concrete inputs: recording started at 10000, seven
periodic deliveries, trigger at 16300. -/
theorem capture_segment_after_trigger_witness :
    (10000 + BUFFER_DURATION ≤ 16300 ∧
      10000 + 7 * CHUNK_DURATION ≤ 16300 + CHUNK_DURATION ∧
      16300 + CHUNK_DURATION < 10000 + (7 + 1) * CHUNK_DURATION) ∧
    (16300 < (captureTiming 16300 0).blobAt ∧
      (captureTiming 16300 0).blobAt - 16300 ≤ BUFFER_DURATION ∧
      (∃ ch ∈ captureBlobChunks 10000 7 16300, 16300 < ch.stop) ∧
      (∀ u, 16300 ≤ u → u ≤ 16300 + BEEP_MS →
        coversAt (captureBlobChunks 10000 7 16300) u)) :=
  ⟨by refine ⟨by decide, by decide, by decide⟩,
    capture_segment_after_trigger 10000 7 16300 0 (by decide) (by decide) (by decide)⟩

/-- C3 counterexample: for a trigger at 7000 with an instantaneous upload,
the succeeding recording context starts at 8500 while the preceding one
stopped at 8000 — the claimed "succeeding context's start time ≤ preceding
context's stop time" is false: the device stops its only recorder and
restarts it after the upload, leaving a window with zero recording
contexts. -/
theorem rolling_buffer_gap_counterexample :
    ¬ ((captureTiming 7000 0).restartAt ≤ (captureTiming 7000 0).stopAt) := by
  decide

/-- C3 (amended): the device agent has a single recording context; on a
capture at `t` it is stopped at `t + CHUNK_DURATION` and a fresh context is
started only `500 + d` ms later (after the flush wait and an upload of
duration `d`), so between two consecutive finalized segments there is a gap
of at least 500 ms during which no context records: the succeeding context's
start time strictly exceeds the preceding context's stop time. -/
theorem recorder_restart_gap (t d : Nat) :
    (captureTiming t d).restartAt = (captureTiming t d).stopAt + (500 + d) ∧
    (captureTiming t d).stopAt < (captureTiming t d).restartAt ∧
    (startRecording ((captureTiming t d).restartAt)).lastBoundary =
      (captureTiming t d).stopAt + (500 + d) := by
  refine ⟨?_, ?_, ?_⟩ <;> simp [captureTiming, startRecording] <;> omega

/-- C4 counterexample: with one connected device that is the conductor, a
`request-synchronized-start` from it produces no countdown at all — not the
claimed 3 ticks and one "go" (the server registers no handler for that
event). -/
theorem sync_start_no_countdown_counterexample :
    c4state.masterClient = some 1 ∧
    ¬ ((((serverStep c4state (Ev.requestSyncStart 1)).2.filter isTickMsg).length = 3) ∧
      (((serverStep c4state (Ev.requestSyncStart 1)).2.filter isGoMsg).length = 1)) := by
  decide

/-- C4 (amended): the coordinator implements no synchronized-start
operation: a `request-synchronized-start` event (from the conductor or
anyone, duplicated any number of times) is dropped — the state is unchanged
and nothing is broadcast, so zero countdown ticks and zero "go" messages are
ever produced. -/
theorem sync_start_not_implemented (s : ServerState) (sid : Nat) :
    serverStep s (Ev.requestSyncStart sid) = (s, []) ∧
    ((serverStep s (Ev.requestSyncStart sid)).2.filter isTickMsg).length = 0 ∧
    ((serverStep s (Ev.requestSyncStart sid)).2.filter isGoMsg).length = 0 :=
  ⟨rfl, rfl, rfl⟩

set_option maxRecDepth 100000 in
/-- C5 counterexample: after 100 honored triggers in one run the counter is
100, and the 101st folder identifier is `100_20251020_152430_2222`: its
counter field has three digits, not the claimed two-digit form `NN`. -/
theorem two_digit_counter_counterexample :
    (serverStep (runServer (serverInit 0) c5run) (Ev.triggerCapture 1 2222 dparts0)).2 =
      [Msg.capture 2222 0 "100_20251020_152430_2222"] ∧
    (beforeFirstUnderscoreData ("100_20251020_152430_2222").data).length = 3 ∧
    (beforeFirstUnderscoreData ("100_20251020_152430_2222").data).length ≠ 2 := by
  refine ⟨by decide, by decide, by decide⟩

/-- C5 (amended): every honored trigger broadcasts exactly one capture event
whose folder identifier is the counter zero-padded to AT LEAST two digits
(exactly two only while the counter is below 100), then the calendar
date-time string, then the decimal wall-clock timestamp; the timestamp field
equals the logical timestamp broadcast in the same capture event; and any
1000 triggers issued 1 ms apart yield pairwise distinct identifiers. -/
theorem folder_identifier_format (s : ServerState) (m now : Nat) (d : DateParts)
    (hm : s.masterClient = some m) :
    (serverStep s (Ev.triggerCapture m now d)).2 =
      [Msg.capture now s.sessionId (mkFolderName s.captureCounter d now)] ∧
    beforeFirstUnderscoreData (mkFolderName s.captureCounter d now).data =
      (padStart (Nat.repr s.captureCounter) 2 '0').data ∧
    afterLastUnderscoreData (mkFolderName s.captureCounter d now).data =
      (Nat.repr now).data ∧
    2 ≤ (padStart (Nat.repr s.captureCounter) 2 '0').length ∧
    (∀ (c0 t0 : Nat) (f : Nat → DateParts) (i j : Nat),
      i < 1000 → j < 1000 → i ≠ j →
      mkFolderName (c0 + i) (f i) (t0 + i) ≠ mkFolderName (c0 + j) (f j) (t0 + j)) := by
  refine ⟨?_, beforeFirst_mkFolderName _ _ _, afterLast_mkFolderName _ _ _, ?_, ?_⟩
  · show (triggerStep s m now d).2 = _
    unfold triggerStep
    rw [hm]
    simp
  · rw [padStart_length]
    omega
  · intro c0 t0 f i j hi hj hij heq
    exact hij (by have := mkFolderName_injective_ts heq; omega)

/-- Witness for C5 (amended) at a concrete master and trigger. -/
theorem folder_identifier_format_witness :
    c4state.masterClient = some 1 ∧
    ((serverStep c4state (Ev.triggerCapture 1 4321 dparts0)).2 =
      [Msg.capture 4321 c4state.sessionId (mkFolderName c4state.captureCounter dparts0 4321)] ∧
    beforeFirstUnderscoreData (mkFolderName c4state.captureCounter dparts0 4321).data =
      (padStart (Nat.repr c4state.captureCounter) 2 '0').data ∧
    afterLastUnderscoreData (mkFolderName c4state.captureCounter dparts0 4321).data =
      (Nat.repr 4321).data ∧
    2 ≤ (padStart (Nat.repr c4state.captureCounter) 2 '0').length ∧
    (∀ (c0 t0 : Nat) (f : Nat → DateParts) (i j : Nat),
      i < 1000 → j < 1000 → i ≠ j →
      mkFolderName (c0 + i) (f i) (t0 + i) ≠ mkFolderName (c0 + j) (f j) (t0 + j))) :=
  ⟨by decide, folder_identifier_format c4state 1 4321 dparts0 (by decide)⟩

/-- C6 counterexample: two separate coordinator runs (over the same storage
namespace, which is never consulted) both stamp counter value 0 into their
first folder identifier — the later run reuses the earlier run's counter. -/
theorem counter_reuse_across_runs :
    countersUsed (serverInit 5) [Ev.connect 1 10, Ev.triggerCapture 1 1000 dparts0] = [0] ∧
    countersUsed (serverInit 99) [Ev.connect 2 20, Ev.triggerCapture 2 2000 dparts0] = [0] := by
  refine ⟨by decide, by decide⟩

/-- C6 (amended): on startup the capture counter is the fixed baseline 0
(`let captureCounter = 0`); durable storage is never scanned, so every run's
first honored trigger stamps counter 0, and counter values repeat across
runs (full folder identifiers still differ whenever the wall-clock
timestamps differ). -/
theorem counter_initial_baseline :
    (∀ sid0, (serverInit sid0).captureCounter = 0) ∧
    (∀ (sid0 c1 t1 n : Nat) (d : DateParts),
      countersUsed (serverInit sid0) [Ev.connect c1 t1, Ev.triggerCapture c1 n d] = [0]) := by
  refine ⟨fun _ => rfl, ?_⟩
  intro sid0 c1 t1 n d
  simp [countersUsed, serverStep, connectStep, triggerStep, serverInit, setEntry, isCaptureMsg]

/-- C7: capture-counter values stamped into folder identifiers are strictly
increasing along any run (never reused); a disconnect never changes the
counter; and the roster-empty reset regenerates the session id and clears
the master but leaves the counter untouched. -/
theorem capture_counter_strictly_increasing :
    (∀ (s : ServerState) (evs : List Ev), List.Chain' (· < ·) (countersUsed s evs)) ∧
    (∀ (s : ServerState) (sid now : Nat),
      (serverStep s (Ev.disconnect sid now)).1.captureCounter = s.captureCounter) ∧
    (∀ (s : ServerState) (sid now : Nat), delEntry s.clients sid = [] →
      (serverStep s (Ev.disconnect sid now)).1.masterClient = none ∧
      (serverStep s (Ev.disconnect sid now)).1.sessionId = now ∧
      (serverStep s (Ev.disconnect sid now)).1.captureCounter = s.captureCounter) := by
  refine ⟨fun s evs => countersUsed_chain evs s, ?_, ?_⟩
  · intro s sid now
    show (disconnectStep s sid now).1.captureCounter = s.captureCounter
    unfold disconnectStep
    split
    · split <;> rfl
    · rfl
    · rfl
  · intro s sid now hdel
    cases hmc : s.masterClient with
    | none =>
      show ((disconnectStep s sid now).1.masterClient = none ∧
        (disconnectStep s sid now).1.sessionId = now ∧
        (disconnectStep s sid now).1.captureCounter = s.captureCounter)
      unfold disconnectStep
      rw [hmc, hdel]
      exact ⟨rfl, rfl, rfl⟩
    | some m =>
      show ((disconnectStep s sid now).1.masterClient = none ∧
        (disconnectStep s sid now).1.sessionId = now ∧
        (disconnectStep s sid now).1.captureCounter = s.captureCounter)
      unfold disconnectStep
      rw [hmc, hdel]
      exact ⟨rfl, rfl, rfl⟩

/-- Witness for C7's reset conjunct: the only device disconnects, the
session id becomes the disconnect instant, the counter is unchanged. -/
theorem capture_counter_strictly_increasing_witness :
    delEntry c4state.clients 1 = [] ∧
    ((serverStep c4state (Ev.disconnect 1 77)).1.masterClient = none ∧
      (serverStep c4state (Ev.disconnect 1 77)).1.sessionId = 77 ∧
      (serverStep c4state (Ev.disconnect 1 77)).1.captureCounter = c4state.captureCounter) :=
  ⟨by decide, capture_counter_strictly_increasing.2.2 c4state 1 77 (by decide)⟩

/-- C8: when the conductor disconnects with devices remaining, exactly one
promotion (`role`) message is emitted, targeted at the first remaining entry
of the roster in insertion order — which, for a roster ordered by
connected-at times, is the earliest-connected remaining device; the outcome
is a function of the roster alone, hence deterministic. -/
theorem conductor_promotion_deterministic (s : ServerState) (m now k : Nat)
    (r : ClientRec) (rest : List (Nat × ClientRec))
    (hm : s.masterClient = some m)
    (hdel : delEntry s.clients m = (k, r) :: rest)
    (hsort : s.clients.Pairwise (fun a b => a.2.connected ≤ b.2.connected)) :
    (serverStep s (Ev.disconnect m now)).1.masterClient = some k ∧
    (serverStep s (Ev.disconnect m now)).2 =
      [Msg.role k "master" s.sessionId,
        Msg.status ((k, r) :: rest).length s.sessionId] ∧
    ((serverStep s (Ev.disconnect m now)).2.filter isRoleMsg).length = 1 ∧
    (∀ p ∈ rest, r.connected ≤ p.2.connected) := by
  have hstep : serverStep s (Ev.disconnect m now) =
      ({ s with clients := (k, r) :: rest, masterClient := some k },
        [Msg.role k "master" s.sessionId,
          Msg.status ((k, r) :: rest).length s.sessionId]) := by
    show disconnectStep s m now = _
    unfold disconnectStep
    rw [hm, hdel]
    simp
  refine ⟨by rw [hstep], by rw [hstep], by rw [hstep]; rfl, ?_⟩
  have hp : ((k, r) :: rest).Pairwise (fun a b => a.2.connected ≤ b.2.connected) := by
    rw [← hdel]
    exact hsort.filter _
  exact fun p hp' => (List.pairwise_cons.mp hp).1 p hp'

/-- Witness for C8: a fixed 3-device roster, conductor disconnects, device 2
(earliest-connected remaining) is promoted. -/
theorem conductor_promotion_deterministic_witness :
    ((runServer (serverInit 5) [Ev.connect 1 10, Ev.connect 2 11, Ev.connect 3 12]).masterClient = some 1 ∧
      delEntry (runServer (serverInit 5) [Ev.connect 1 10, Ev.connect 2 11, Ev.connect 3 12]).clients 1 =
        (2, ⟨2, "client", 11, false⟩) :: [(3, ⟨3, "client", 12, false⟩)] ∧
      (runServer (serverInit 5) [Ev.connect 1 10, Ev.connect 2 11, Ev.connect 3 12]).clients.Pairwise
        (fun a b => a.2.connected ≤ b.2.connected)) ∧
    ((serverStep (runServer (serverInit 5) [Ev.connect 1 10, Ev.connect 2 11, Ev.connect 3 12]) (Ev.disconnect 1 13)).1.masterClient = some 2 ∧
      (serverStep (runServer (serverInit 5) [Ev.connect 1 10, Ev.connect 2 11, Ev.connect 3 12]) (Ev.disconnect 1 13)).2 =
        [Msg.role 2 "master" 5,
          Msg.status ((2, (⟨2, "client", 11, false⟩ : ClientRec)) :: [(3, ⟨3, "client", 12, false⟩)]).length 5] ∧
      ((serverStep (runServer (serverInit 5) [Ev.connect 1 10, Ev.connect 2 11, Ev.connect 3 12]) (Ev.disconnect 1 13)).2.filter isRoleMsg).length = 1 ∧
      (∀ p ∈ [((3 : Nat), (⟨3, "client", 12, false⟩ : ClientRec))],
        (⟨2, "client", 11, false⟩ : ClientRec).connected ≤ p.2.connected)) :=
  ⟨⟨by decide, by decide, by decide⟩,
    by
      have := conductor_promotion_deterministic
        (runServer (serverInit 5) [Ev.connect 1 10, Ev.connect 2 11, Ev.connect 3 12])
        1 13 2 ⟨2, "client", 11, false⟩ [(3, ⟨3, "client", 12, false⟩)]
        (by decide) (by decide) (by decide)
      simpa using this⟩

/-- C9: at most one capture is in flight per device at any time; a
`saveVideo` entered while an upload is in flight returns immediately with
only a local busy indication — nothing is sent to anyone, nothing is queued
(the state is unchanged apart from the busy counter); and the capture button
itself refuses to emit a trigger while uploading. -/
theorem at_most_one_capture_in_flight :
    (∀ evs : List DevEv, (runDev devInit evs).inFlight ≤ 1) ∧
    (∀ s : DeviceState, s.isUploading = true →
      devStep s DevEv.saveBegin = ({ s with busyCount := s.busyCount + 1 }, [])) ∧
    (∀ myRole : String, captureBtnEmits myRole true = false) := by
  refine ⟨?_, ?_, ?_⟩
  · have key : ∀ (evs : List DevEv) (s : DeviceState),
        s.inFlight = (if s.isUploading then 1 else 0) →
        (runDev s evs).inFlight = (if (runDev s evs).isUploading then 1 else 0) := by
      intro evs
      induction evs with
      | nil => intro s h; exact h
      | cons e rest ih =>
        intro s h
        cases e with
        | saveBegin =>
          by_cases hu : s.isUploading
          · apply ih
            simp only [runDev, devStep, hu, if_true, if_pos]
            simpa [hu] using h
          · apply ih
            simp only [runDev, devStep, hu, if_false]
            simp [hu] at h
            simp [h]
        | saveEnd =>
          apply ih
          simp only [runDev, devStep]
          simp only [Bool.false_eq_true, if_false]
          by_cases hu : s.isUploading <;> simp [hu] at h <;> omega
    intro evs
    have h := key evs devInit rfl
    rw [h]
    split <;> omega
  · intro s hs
    simp [devStep, hs]
  · intro myRole
    simp [captureBtnEmits]

/-- Witness for C9's busy-rejection conjunct at a concrete device state. -/
theorem at_most_one_capture_in_flight_witness :
    (⟨true, 1, 0⟩ : DeviceState).isUploading = true ∧
    devStep (⟨true, 1, 0⟩ : DeviceState) DevEv.saveBegin = (⟨true, 1, 1⟩, []) :=
  ⟨rfl, at_most_one_capture_in_flight.2.1 (⟨true, 1, 0⟩ : DeviceState) rfl⟩

/-- C10: a device's `role` field in the server's client map is fixed at
connection time: promoting it on the conductor's disconnect updates only
`masterClient` and sends it a `role` message, leaving its map entry with
role "client", so a later flash-capable list sent to the new conductor
reports the promoted conductor itself with role "client". -/
theorem promoted_conductor_role_stale (s : ServerState) (m now k : Nat)
    (r : ClientRec) (rest : List (Nat × ClientRec))
    (hm : s.masterClient = some m)
    (hdel : delEntry s.clients m = (k, r) :: rest)
    (hrole : r.role = "client") :
    (serverStep s (Ev.disconnect m now)).1.masterClient = some k ∧
    getEntry (serverStep s (Ev.disconnect m now)).1.clients k = some r ∧
    (∃ phones,
      (serverStep (serverStep s (Ev.disconnect m now)).1 (Ev.registerFlash k true)).2 =
        [Msg.flashList k phones] ∧ (k, "client") ∈ phones) := by
  have hstep : serverStep s (Ev.disconnect m now) =
      ({ s with clients := (k, r) :: rest, masterClient := some k },
        [Msg.role k "master" s.sessionId,
          Msg.status ((k, r) :: rest).length s.sessionId]) := by
    show disconnectStep s m now = _
    unfold disconnectStep
    rw [hm, hdel]
    simp
  refine ⟨by rw [hstep], by rw [hstep]; simp [getEntry], ?_⟩
  rw [hstep]
  refine ⟨(((k, { r with hasFlash := true }) :: rest).filter
      (fun e => e.2.hasFlash)).map (fun e => (e.1, e.2.role)), ?_, ?_⟩
  · show (registerFlashStep { s with clients := (k, r) :: rest, masterClient := some k }
      k true).2 = _
    unfold registerFlashStep
    simp [getEntry, setEntry]
  · have hfil : (((k, { r with hasFlash := true }) :: rest).filter
        (fun e => e.2.hasFlash)) =
        (k, { r with hasFlash := true }) ::
          rest.filter (fun e => e.2.hasFlash) := by
      simp
    rw [hfil]
    simp [hrole]

/-- Witness for C10: conductor 1 disconnects from a 2-device roster, device
2 is promoted, and the next flash list reports device 2 with role
"client". -/
theorem promoted_conductor_role_stale_witness :
    ((runServer (serverInit 5) [Ev.connect 1 10, Ev.connect 2 11]).masterClient = some 1 ∧
      delEntry (runServer (serverInit 5) [Ev.connect 1 10, Ev.connect 2 11]).clients 1 =
        (2, ⟨2, "client", 11, false⟩) :: [] ∧
      (⟨2, "client", 11, false⟩ : ClientRec).role = "client") ∧
    ((serverStep (runServer (serverInit 5) [Ev.connect 1 10, Ev.connect 2 11]) (Ev.disconnect 1 12)).1.masterClient = some 2 ∧
      getEntry (serverStep (runServer (serverInit 5) [Ev.connect 1 10, Ev.connect 2 11]) (Ev.disconnect 1 12)).1.clients 2 =
        some ⟨2, "client", 11, false⟩ ∧
      (∃ phones,
        (serverStep (serverStep (runServer (serverInit 5) [Ev.connect 1 10, Ev.connect 2 11]) (Ev.disconnect 1 12)).1
            (Ev.registerFlash 2 true)).2 = [Msg.flashList 2 phones] ∧
          ((2 : Nat), "client") ∈ phones)) :=
  ⟨⟨by decide, by decide, by decide⟩,
    promoted_conductor_role_stale
      (runServer (serverInit 5) [Ev.connect 1 10, Ev.connect 2 11])
      1 12 2 ⟨2, "client", 11, false⟩ []
      (by decide) (by decide) (by decide)⟩

end RetroCapture
